import Mathlib

/-!
# Verification of `agent-skills-tool` (src/src/index.ts)

A shallow embedding of the skill-installer CLI: repo-spec parsing,
source resolution (with its temporary-clone lifecycle, modelled as an
event trace), manifest validation, target resolution and the
directory-copy semantics of the installer.

External collaborators that are not part of this repository's sources
(the `semver` validator, the WHATWG `URL` constructor, `node:path`
helpers and `fs.cp`) are modelled explicitly; each such definition says
so in its doc comment.  Everything else is translated directly from
`src/src/index.ts`.
-/

namespace AgentSkills

/-! ## String helpers (structural, over `String.data`) -/

/-- Does the character list `l` start with `p`? (model of `String.prototype.startsWith`). -/
def startsWithL : List Char → List Char → Bool
  | _, [] => true
  | [], _ :: _ => false
  | c :: cs, p :: ps => c == p && startsWithL cs ps

/-- Model of JavaScript `input.startsWith(p)`. -/
def jsStartsWith (s p : String) : Bool := startsWithL s.data p.data

/-- Model of JavaScript `input.endsWith(p)`. -/
def jsEndsWith (s p : String) : Bool := startsWithL s.data.reverse p.data.reverse

/-- Model of JavaScript `String.prototype.trim` (strips leading and trailing whitespace). -/
def jsTrim (s : String) : String :=
  ⟨((s.data.dropWhile Char.isWhitespace).reverse.dropWhile Char.isWhitespace).reverse⟩

/-- Split a character list at every occurrence of `sep` (model of `String.prototype.split`). -/
def splitOnCharAux (sep : Char) : List Char → List Char → List (List Char)
  | [], acc => [acc.reverse]
  | c :: cs, acc =>
    if c == sep then acc.reverse :: splitOnCharAux sep cs []
    else splitOnCharAux sep cs (c :: acc)

def splitOnChar (sep : Char) (l : List Char) : List (List Char) :=
  splitOnCharAux sep l []

/-- Split a string at every occurrence of the character `sep`. -/
def splitStr (sep : Char) (s : String) : List String :=
  (splitOnChar sep s.data).map (fun l => ⟨l⟩)

/-- Join character lists with the separator `sep` (model of `Array.prototype.join`). -/
def joinWithChar (sep : Char) : List (List Char) → List Char
  | [] => []
  | [l] => l
  | l :: ls => l ++ sep :: joinWithChar sep ls

/-- Join strings with `"/"` (model of `segments.join("/")`). -/
def joinSlash (ls : List String) : String :=
  ⟨joinWithChar '/' (ls.map String.data)⟩

/-- Split at the first occurrence of `sep`, if any. -/
def splitFirstAux (sep : Char) : List Char → Option (List Char × List Char)
  | [] => none
  | c :: cs =>
    if c == sep then some ([], cs)
    else
      match splitFirstAux sep cs with
      | none => none
      | some (l, r) => some (c :: l, r)

/-- Split a string at the first occurrence of `sep`: the part before, and
(when `sep` occurs) the part after. -/
def splitFirst (sep : Char) (s : String) : String × Option String :=
  match splitFirstAux sep s.data with
  | none => (s, none)
  | some (l, r) => (⟨l⟩, some ⟨r⟩)

/-! ## `node:path` models -/

/-- Model of `path.join(a, b)` for the normalization-free inputs this tool
produces (no `.`/`..` segments, no trailing slashes). -/
def pathJoin (a b : String) : String :=
  if a = "" then b else if b = "" then a else a ++ "/" ++ b

/-- Model of `path.resolve(cwd, p)` for inputs without `.`/`..` segments:
an absolute path is returned as is, a relative one is joined to `cwd`. -/
def pathResolve (cwd p : String) : String :=
  if jsStartsWith p "/" then p else pathJoin cwd p

/-- Model of `path.basename` / the last `/`-separated component. -/
def basename (s : String) : String :=
  ⟨(splitOnChar '/' s.data).getLastD []⟩

/-- Model of `path.dirname` and `path.posix.dirname` for slash-separated
paths without trailing slashes. -/
def dirname (s : String) : String :=
  match (splitOnChar '/' s.data).dropLast with
  | [] => "."
  | [[]] => "/"
  | parts => ⟨joinWithChar '/' parts⟩

/-! ## WHATWG `URL` model -/

structure URLParts where
  hostname : String
  pathname : String
deriving DecidableEq, Repr

/-- The part of an authority after the last `@` (strips userinfo). -/
def afterLastAt (l : List Char) : List Char :=
  ((l.reverse.takeWhile (fun c => c != '@')).reverse)

/-- Model of the WHATWG `URL` constructor (a platform black box, not part of
this repository's sources), restricted to the `http://`/`https://` inputs the
tool feeds it: parsing fails (`none`, the constructor throws) when the
authority is empty, e.g. for `"http://"`; otherwise the hostname is the
lower-cased host (userinfo and port stripped) and the pathname runs from the
first `/` up to any query or fragment, defaulting to `"/"`. -/
def parseURL (input : String) : Option URLParts :=
  let rest : Option (List Char) :=
    if jsStartsWith input "http://" then some (input.data.drop 7)
    else if jsStartsWith input "https://" then some (input.data.drop 8)
    else none
  match rest with
  | none => none
  | some cs =>
    let authority := cs.takeWhile (fun c => c != '/' && c != '?' && c != '#')
    let after := cs.drop authority.length
    if authority.isEmpty then none
    else
      let host := (afterLastAt authority).takeWhile (fun c => c != ':')
      let path := after.takeWhile (fun c => c != '?' && c != '#')
      some { hostname := ⟨host.map Char.toLower⟩,
             pathname := if path.isEmpty then "/" else ⟨path⟩ }

/-! ## JavaScript values (the shape of gray-matter frontmatter data) -/

/-- The JavaScript values relevant to this program: `undefined`, `null`,
booleans, (integer) numbers, strings, and plain objects. -/
inductive JSValue where
  | undefined
  | null
  | bool (b : Bool)
  | num (n : Int)
  | str (s : String)
  | obj (fields : List (String × JSValue))

/-- JavaScript truthiness. -/
def jsTruthy : JSValue → Bool
  | .undefined => false
  | .null => false
  | .bool b => b
  | .num n => n != 0
  | .str s => s != ""
  | .obj _ => true

/-- Does `typeof v === "object"` hold? (`null` and objects only). -/
def typeofIsObject : JSValue → Bool
  | .null => true
  | .obj _ => true
  | _ => false

def digitChar (n : Nat) : Char := Char.ofNat (48 + n)

def natToDigitsAux : Nat → Nat → List Char → List Char
  | 0, _, acc => acc
  | fuel + 1, n, acc =>
    if n < 10 then digitChar n :: acc
    else natToDigitsAux fuel (n / 10) (digitChar (n % 10) :: acc)

def natToString (n : Nat) : String := ⟨natToDigitsAux (n + 1) n []⟩

/-- Decimal rendering of an integer (model of JavaScript number-to-string
for integral values). -/
def intToString (i : Int) : String :=
  if i < 0 then "-" ++ natToString i.natAbs else natToString i.natAbs

/-- Model of the JavaScript `String()` coercion. -/
def jsToString : JSValue → String
  | .undefined => "undefined"
  | .null => "null"
  | .bool b => if b then "true" else "false"
  | .num n => intToString n
  | .str s => s
  | .obj _ => "[object Object]"

/-- Model of JavaScript `a || b`. -/
def jsOr (a b : JSValue) : JSValue := if jsTruthy a then a else b

def lookupField (k : String) : List (String × JSValue) → Option JSValue
  | [] => none
  | (m, v) :: rest => if m == k then some v else lookupField k rest

/-- Property access `v.k`: `undefined` when absent or when `v` is not an
object (the code only accesses fields after its object check). -/
def getField (v : JSValue) (k : String) : JSValue :=
  match v with
  | .obj fields =>
    match lookupField k fields with
    | some w => w
    | none => .undefined
  | _ => .undefined

/-! ## Semantic-version validator -/

def isSemverIdentChar (c : Char) : Bool := c.isAlphanum || c == '-'

/-- A numeric identifier without leading zeros. -/
def numericNoLeadingZero (s : String) : Bool :=
  s != "" && s.data.all Char.isDigit && (s == "0" || !(jsStartsWith s "0"))

def prereleaseIdOk (s : String) : Bool :=
  s != "" && s.data.all isSemverIdentChar &&
    (if s.data.all Char.isDigit then s == "0" || !(jsStartsWith s "0") else true)

def buildIdOk (s : String) : Bool :=
  s != "" && s.data.all isSemverIdentChar

/-- Modelled from the spec: the semantic-version validator (`semver.valid`
from the external `semver` package, whose code is not part of this
repository's sources) is modelled as a syntax check for
`MAJOR.MINOR.PATCH` with optional pre-release and build metadata per
standard semantic-versioning rules, as §4.3/§6 of the design document
describe it. -/
def semverValid (s : String) : Bool :=
  let (beforeBuild, buildPart) := splitFirst '+' s
  let (core, prePart) := splitFirst '-' beforeBuild
  let coreOk :=
    match splitStr '.' core with
    | [maj, minr, pat] =>
      numericNoLeadingZero maj && numericNoLeadingZero minr && numericNoLeadingZero pat
    | _ => false
  let preOk :=
    match prePart with
    | none => true
    | some p => (splitStr '.' p).all prereleaseIdOk
  let buildOk :=
    match buildPart with
    | none => true
    | some b => (splitStr '.' b).all buildIdOk
  coreOk && preOk && buildOk

/-! ## Manifest validator (`validateFrontmatter`) -/

inductive VErr where
  | missingFrontmatter
  | missingName
  | missingDescription
  | missingVersion
  | invalidSemver
deriving DecidableEq, Repr

/-- `String(frontmatter.name || "").trim()`. -/
def fmName (fm : JSValue) : String :=
  jsTrim (jsToString (jsOr (getField fm "name") (.str "")))

/-- `String(frontmatter.description || "").trim()`. -/
def fmDescription (fm : JSValue) : String :=
  jsTrim (jsToString (jsOr (getField fm "description") (.str "")))

/-- `frontmatter.metadata && typeof frontmatter.metadata === "object" ? … : null`. -/
def fmMetadata (fm : JSValue) : Option JSValue :=
  if jsTruthy (getField fm "metadata") && typeofIsObject (getField fm "metadata") then
    some (getField fm "metadata")
  else none

/-- `String(metadata?.version || "").trim()`. -/
def fmVersion (fm : JSValue) : String :=
  jsTrim (jsToString (jsOr
    (match fmMetadata fm with
     | some m => getField m "version"
     | none => .undefined)
    (.str "")))

/-- `validateFrontmatter(frontmatter, skillFile)` from `src/src/index.ts`
(the `skillFile` argument only feeds the error messages and is omitted).
It throws the first applicable error, modelled as `Except`. -/
def validateFrontmatter (fm : JSValue) : Except VErr Unit :=
  if !jsTruthy fm || !typeofIsObject fm then .error .missingFrontmatter
  else if fmName fm = "" then .error .missingName
  else if fmDescription fm = "" then .error .missingDescription
  else if fmVersion fm = "" then .error .missingVersion
  else if !semverValid (fmVersion fm) then .error .invalidSemver
  else .ok ()

/-! ## Repo-spec parsing -/

structure RepoSpec where
  repoUrl : String
  ref : Option String := none
  subdir : Option String := none
deriving DecidableEq, Repr

/-- A character of the regex class `[\w.-]`. -/
def isWordDotDash (c : Char) : Bool :=
  c.isAlphanum || c == '_' || c == '.' || c == '-'

/-- The regex test `/^[\w.-]+\/[\w.-]+$/.test(input)`. -/
def isOwnerRepoShorthand (s : String) : Bool :=
  match splitStr '/' s with
  | [a, b] => a != "" && b != "" && a.data.all isWordDotDash && b.data.all isWordDotDash
  | _ => false

/-- `isRepoLike(input)` from `src/src/index.ts`. -/
def isRepoLike (input : String) : Bool :=
  if input == "" then false
  else if jsStartsWith input "http://" || jsStartsWith input "https://" then true
  else if jsEndsWith input ".git" then true
  else isOwnerRepoShorthand input

/-- `url.pathname.replace(/^\//, "")`: removes one leading slash. -/
def stripLeadSlash : List Char → List Char
  | '/' :: cs => cs
  | cs => cs

/-- Truthiness of an optional string under JavaScript rules: `undefined`
and the empty string are falsy. -/
def optTruthy : Option String → Bool
  | none => false
  | some s => s != ""

/-- `parseGitHubUrl(url)` from `src/src/index.ts`. -/
def parseGitHubUrl (url : URLParts) : Option RepoSpec :=
  let segments := (splitOnChar '/' (stripLeadSlash url.pathname.data)).map
    (fun l => (⟨l⟩ : String))
  if segments.length < 2 then none
  else
    let owner := segments.getD 0 ""
    let repo := segments.getD 1 ""
    let (ref, subdir) : Option String × Option String :=
      if segments.getD 2 "" == "tree" || segments.getD 2 "" == "blob" then
        let sub := joinSlash (segments.drop 4)
        (segments.get? 3,
         some (if sub != "" && jsEndsWith sub "SKILL.md" then dirname sub else sub))
      else (none, none)
    some { repoUrl := "https://github.com/" ++ owner ++ "/" ++ repo ++ ".git",
           ref := ref, subdir := subdir }

/-- `parseRepoSpec(input)` from `src/src/index.ts`. -/
def parseRepoSpec (input : String) : Option RepoSpec :=
  if input == "" then none
  else if jsStartsWith input "http://" || jsStartsWith input "https://" then
    match parseURL input with
    | none => none
    | some url =>
      if url.hostname == "github.com" then
        match parseGitHubUrl url with
        | some spec => some spec
        | none => some { repoUrl := input }
      else some { repoUrl := input }
  else if jsEndsWith input ".git" then some { repoUrl := input }
  else if isOwnerRepoShorthand input then
    some { repoUrl := "https://github.com/" ++ input ++ ".git" }
  else none

/-! ## Target resolution -/

structure InstallTarget where
  label : String
  baseDir : String
deriving DecidableEq, Repr

/-- The ambient process environment consulted by `getInstallTargets`:
the working directory (`path.resolve`), `os.homedir()` and
`process.env.CODEX_HOME`. -/
structure Env where
  cwd : String
  homeDir : String
  codexHome : Option String

/-- `getInstallTargets(destinationProjectPath)` from `src/src/index.ts`.
A total function: it never fails. -/
def getInstallTargets (env : Env) (destinationProjectPath : Option String) :
    List InstallTarget :=
  if optTruthy destinationProjectPath then
    let projectRoot := pathResolve env.cwd (destinationProjectPath.getD "")
    [ { label := "codex-project", baseDir := pathJoin (pathJoin projectRoot ".codex") "skills" },
      { label := "claude-project", baseDir := pathJoin (pathJoin projectRoot ".claude") "skills" },
      { label := "gemini-project", baseDir := pathJoin (pathJoin projectRoot ".gemini") "skills" } ]
  else
    let codexHome :=
      match env.codexHome with
      | some s => if s != "" then pathResolve env.cwd s else pathJoin env.homeDir ".codex"
      | none => pathJoin env.homeDir ".codex"
    [ { label := "codex-user", baseDir := pathJoin codexHome "skills" },
      { label := "claude-user", baseDir := pathJoin (pathJoin env.homeDir ".claude") "skills" },
      { label := "gemini-user", baseDir := pathJoin (pathJoin env.homeDir ".gemini") "skills" } ]

/-! ## Event-trace embedding of the install run

Every observable side effect of a run is recorded as an event; fallible
external operations (`fs.stat`, `git clone`, `fs.access`, the interactive
prompt, the parsed frontmatter) are oracles supplied by a `World`. -/

inductive StatKind where
  | fileK
  | dirK
  | otherK
deriving DecidableEq, Repr

inductive ConflictAction where
  | overwrite
  | merge
  | skip
deriving DecidableEq, Repr

/-- The filesystem/process side effects of one run, in order. -/
inductive Ev where
  /-- `fs.mkdtemp(path.join(os.tmpdir(), "agent-skill-"))` created `dir`. -/
  | mkdtempE (dir : String)
  /-- `git clone --depth 1 [--branch ref --single-branch] url dir`. -/
  | cloneE (url : String) (ref : Option String) (dir : String)
  /-- the cleanup closure's `fs.rm(cloneDir, {recursive: true, force: true})`. -/
  | cleanupRmE (dir : String)
  /-- `fs.stat(p)`. -/
  | statE (p : String)
  /-- `fs.readFile(p, "utf8")`. -/
  | readFileE (p : String)
  /-- `fs.mkdir(dir, {recursive: true})`. -/
  | mkdirE (dir : String)
  /-- `fs.rm(dir, {recursive: true, force: true})` in the overwrite action. -/
  | rmRfE (dir : String)
  /-- `copyDir(src, dst)`. -/
  | cpE (src : String) (dst : String)
  /-- the interactive conflict prompt. -/
  | promptE (label : String) (dir : String)
deriving DecidableEq, Repr

/-- The `Error`s a run can terminate with. -/
inductive Err where
  /-- `program.help({ error: true })`: no install path was given. -/
  | usage
  /-- "--force and --merge cannot be used together". -/
  | forceMergeConflict
  /-- "Provide either --subdir or a repo URL with a path, not both". -/
  | ambiguousSubdir
  /-- a failed `git clone` (spawn failure or non-zero exit). -/
  | gitClone
  /-- "Skill path not found: p". -/
  | pathNotFound (p : String)
  /-- "Skill file must be named SKILL.md". -/
  | notSkillMd
  /-- "Skill path must be a directory or SKILL.md file". -/
  | notDirOrFile
  /-- "SKILL.md not found in dir (subdir: s)". -/
  | skillMdNotFound (dir : String) (subdir : Option String)
  /-- a `validateFrontmatter` failure. -/
  | validation (e : VErr)
deriving DecidableEq, Repr

/-- The oracles for one run: the process environment, the name `mkdtemp`
draws, whether `git clone` succeeds, the `fs.stat` results, the
frontmatter `gray-matter` parses out of the resolved `SKILL.md`, the
`pathExists` results and the interactive prompt's answers. -/
structure World where
  env : Env
  tmpName : String
  cloneOk : Bool
  stat : String → Option StatKind
  frontmatter : JSValue
  pathExistsO : String → Bool
  promptO : String → String → ConflictAction

/-- `resolveSkillDirFromBase(baseDir, subdir)` from `src/src/index.ts`. -/
def resolveSkillDirFromBase (w : World) (baseDir : String) (subdir : Option String) :
    Except Err String × List Ev :=
  let skillDir := match subdir with | some s => pathJoin baseDir s | none => baseDir
  let skillFile := pathJoin skillDir "SKILL.md"
  if w.stat skillFile == some .fileK then (.ok skillDir, [.statE skillFile])
  else (.error (.skillMdNotFound skillDir subdir), [.statE skillFile])

/-- The result of a successful `resolveSkillSource`: the skill directory
and, when a repository was cloned, the clone directory the returned
cleanup closure would remove. -/
structure ResolveOk where
  skillDir : String
  cleanupDir : Option String
deriving DecidableEq, Repr

/-- `resolveSkillSource(resolvedSkillPath, { subdir, ref })` from
`src/src/index.ts`, with the run's side effects as an event trace. -/
def resolveSkillSource (w : World) (input : String) (subdir ref : Option String) :
    Except Err ResolveOk × List Ev :=
  match parseRepoSpec input with
  | some spec =>
    if optTruthy subdir && optTruthy spec.subdir then
      (.error .ambiguousSubdir, [])
    else
      let repoSubdir : String :=
        if optTruthy spec.subdir then spec.subdir.getD ""
        else if optTruthy subdir then subdir.getD "" else ""
      let cloneDir := w.tmpName
      let cloneRef := if optTruthy ref then ref else spec.ref
      let evs := [Ev.mkdtempE cloneDir, Ev.cloneE spec.repoUrl cloneRef cloneDir]
      if w.cloneOk then
        match resolveSkillDirFromBase w cloneDir
            (if repoSubdir != "" then some repoSubdir else none) with
        | (.ok d, evs2) => (.ok ⟨d, some cloneDir⟩, evs ++ evs2)
        | (.error e, evs2) => (.error e, evs ++ evs2)
      else (.error .gitClone, evs)
  | none =>
    match w.stat input with
    | none => (.error (.pathNotFound input), [.statE input])
    | some .fileK =>
      if basename input == "SKILL.md" then (.ok ⟨dirname input, none⟩, [.statE input])
      else (.error .notSkillMd, [.statE input])
    | some .otherK => (.error .notDirOrFile, [.statE input])
    | some .dirK =>
      match resolveSkillDirFromBase w input
          (if optTruthy subdir then subdir else none) with
      | (.ok d, evs2) => (.ok ⟨d, none⟩, Ev.statE input :: evs2)
      | (.error e, evs2) => (.error e, Ev.statE input :: evs2)

/-- The CLI options `runInstall` receives. -/
structure Opts where
  skillPath : Option String
  subdir : Option String := none
  ref : Option String := none
  destinationProjectPath : Option String := none
  force : Bool := false
  merge : Bool := false

/-- The per-target body of `runInstall`'s loop. -/
def processTarget (w : World) (o : Opts) (skillDir skillName : String)
    (t : InstallTarget) : List Ev :=
  let targetSkillDir := pathJoin t.baseDir skillName
  let ex := w.pathExistsO targetSkillDir
  let (action, evs) :=
    if ex && !o.force && !o.merge then
      (w.promptO t.label targetSkillDir, [Ev.mkdirE t.baseDir, Ev.promptE t.label targetSkillDir])
    else if ex && o.merge then (ConflictAction.merge, [Ev.mkdirE t.baseDir])
    else if ex && o.force then (ConflictAction.overwrite, [Ev.mkdirE t.baseDir])
    else (ConflictAction.overwrite, [Ev.mkdirE t.baseDir])
  match action with
  | .skip => evs
  | .overwrite => evs ++ [Ev.rmRfE targetSkillDir, Ev.cpE skillDir targetSkillDir]
  | .merge => evs ++ [Ev.cpE skillDir targetSkillDir]

/-- The body of `runInstall`'s `try` block: read and validate the
manifest, then process every target. -/
def installBody (w : World) (o : Opts) (skillDir : String) :
    Except Err Unit × List Ev :=
  let skillFile := pathJoin skillDir "SKILL.md"
  match validateFrontmatter w.frontmatter with
  | .error e => (.error (.validation e), [.readFileE skillFile])
  | .ok () =>
    let skillName := jsTrim (jsToString (getField w.frontmatter "name"))
    let targets := getInstallTargets w.env o.destinationProjectPath
    (.ok (), Ev.readFileE skillFile ::
      targets.foldl (fun acc t => acc ++ processTarget w o skillDir skillName t) [])

/-- `runInstall(options)` from `src/src/index.ts`.  The `finally` block
appends the cleanup event only when `resolveSkillSource` returned a
cleanup closure; a failure thrown inside `resolveSkillSource` propagates
before the `try` block is entered. -/
def runInstall (w : World) (o : Opts) : Except Err Unit × List Ev :=
  match o.skillPath with
  | none => (.error .usage, [])
  | some sp =>
    if o.force && o.merge then (.error .forceMergeConflict, [])
    else
      let skillInput := if isRepoLike sp then sp else pathResolve w.env.cwd sp
      match resolveSkillSource w skillInput o.subdir o.ref with
      | (.error e, evs) => (.error e, evs)
      | (.ok r, evs) =>
        let (res, bevs) := installBody w o r.skillDir
        let cevs := match r.cleanupDir with
          | some d => [Ev.cleanupRmE d]
          | none => []
        (res, evs ++ bevs ++ cevs)

/-! ## File trees and the `copyDir` semantics -/

/-- A file tree: a regular file with its contents, or a directory with
named entries. -/
inductive FTree where
  | file (content : String)
  | dir (entries : List (String × FTree))

/-- First entry named `n`, if any. -/
def lookupA (n : String) : List (String × FTree) → Option FTree
  | [] => none
  | (m, t) :: rest => if m = n then some t else lookupA n rest

/-- Replace the entry named `n` (or append it). -/
def assocSet (n : String) (v : FTree) : List (String × FTree) → List (String × FTree)
  | [] => [(n, v)]
  | (m, t) :: rest => if m = n then (m, v) :: rest else (m, t) :: assocSet n v rest

mutual

/-- Model of `fs.cp(src, dst, {recursive: true, force: true, errorOnExist:
false})` (a platform black box): `src` is copied onto whatever `dst` holds
at the same location; an existing file is overwritten, an existing
directory is merged into entry by entry, and a file/directory kind clash
is an error (`fs.cp` raises `ERR_FS_CP_*` there). -/
def cpTree : FTree → Option FTree → Except Unit FTree
  | .file c, none => .ok (.file c)
  | .file c, some (.file _) => .ok (.file c)
  | .file _, some (.dir _) => .error ()
  | .dir _, some (.file _) => .error ()
  | .dir es, none =>
    match cpEntries es [] with
    | .ok r => .ok (.dir r)
    | .error e => .error e
  | .dir es, some (.dir ds) =>
    match cpEntries es ds with
    | .ok r => .ok (.dir r)
    | .error e => .error e

/-- Copy each source entry, in order, into the destination entry list. -/
def cpEntries : List (String × FTree) → List (String × FTree) →
    Except Unit (List (String × FTree))
  | [], ds => .ok ds
  | (n, t) :: rest, ds =>
    match cpTree t (lookupA n ds) with
    | .error e => .error e
    | .ok t' => cpEntries rest (assocSet n t' ds)

end

/-- `copyDir(sourceDir, targetDir)` from `src/src/index.ts`:
`fs.mkdir(targetDir, {recursive: true})` (the destination directory is
created when absent) followed by the recursive, forced `fs.cp`. -/
def copyDir (src : FTree) (dst : Option FTree) : Except Unit FTree :=
  cpTree src (some (dst.getD (.dir [])))

/-- The node of `t` at path `p`, if any. -/
def nodeAt : FTree → List String → Option FTree
  | t, [] => some t
  | .file _, _ :: _ => none
  | .dir es, n :: p =>
    match lookupA n es with
    | some t => nodeAt t p
    | none => none

/-- The contents of the regular file of `t` at path `p`, if any. -/
def fileAt (t : FTree) (p : List String) : Option String :=
  match nodeAt t p with
  | some (.file c) => some c
  | _ => none

/-- No entry of `l` is named `n`. -/
def noKey (n : String) (l : List (String × FTree)) : Bool :=
  !(l.any (fun e => e.1 == n))

mutual

/-- A well-formed tree: entry names are unique in every directory (true
of every real directory listing). -/
def wfT : FTree → Bool
  | .file _ => true
  | .dir es => wfEntries es

def wfEntries : List (String × FTree) → Bool
  | [] => true
  | (n, t) :: rest => noKey n rest && wfT t && wfEntries rest

end

/-! ## Claim theorems -/

/-- C4: `parseRepoSpec` is a pure function (it is a Lean `def` with no
effects) and on the three specified inputs returns exactly: for
`"https://github.com/o/r/tree/main/skills/x"` the record with repo URL
`"https://github.com/o/r.git"`, ref `"main"` and subdir `"skills/x"`;
for `"o/r"` the record with that repo URL and neither ref nor subdir;
and for `"/local/path"` no repo spec at all. -/
theorem parseRepoSpec_examples :
    parseRepoSpec "https://github.com/o/r/tree/main/skills/x"
      = some { repoUrl := "https://github.com/o/r.git", ref := some "main",
               subdir := some "skills/x" }
  ∧ parseRepoSpec "o/r"
      = some { repoUrl := "https://github.com/o/r.git", ref := none, subdir := none }
  ∧ parseRepoSpec "/local/path" = none := by
  refine ⟨by decide, by decide, by decide⟩

/-- C7: whenever the caller supplies a truthy `--subdir` and the input
parses to a repo spec that itself carries a (truthy) subdir — which
`parseRepoSpec` produces exactly for GitHub URLs with a
`/tree/<ref>/<path>` or `/blob/<ref>/<path>` suffix — source resolution
fails with the ambiguous-subdir configuration error and an empty effect
trace: no temporary directory is created and no clone is performed. -/
theorem resolveSkillSource_ambiguous_subdir (w : World) (input : String)
    (sub ref : Option String) (spec : RepoSpec)
    (h1 : parseRepoSpec input = some spec)
    (h2 : optTruthy spec.subdir = true)
    (h3 : optTruthy sub = true) :
    resolveSkillSource w input sub ref = (.error .ambiguousSubdir, []) := by
  unfold resolveSkillSource
  rw [h1]
  simp [h2, h3]

/-- Witness for C7 at the concrete URL of the spec's example. -/
theorem resolveSkillSource_ambiguous_subdir_witness :
    resolveSkillSource
      { env := ⟨"/cwd", "/home/u", none⟩, tmpName := "/tmp/agent-skill-w7",
        cloneOk := true, stat := fun _ => none, frontmatter := .undefined,
        pathExistsO := fun _ => false, promptO := fun _ _ => .skip }
      "https://github.com/o/r/tree/main/skills/x" (some "other/dir") none
      = (.error .ambiguousSubdir, []) :=
  resolveSkillSource_ambiguous_subdir _ _ _ _
    { repoUrl := "https://github.com/o/r.git", ref := some "main",
      subdir := some "skills/x" }
    (by decide) (by decide) (by decide)

/-- C8: with both `--force` and `--merge` set (and an install path
present), the run fails with the configuration error and an empty effect
trace: no filesystem access happens and no target is processed — the
source is not even resolved. -/
theorem runInstall_force_merge_conflict (w : World) (o : Opts) (sp : String)
    (h1 : o.skillPath = some sp) (h2 : o.force = true) (h3 : o.merge = true) :
    runInstall w o = (.error .forceMergeConflict, []) := by
  unfold runInstall
  rw [h1]
  simp [h2, h3]

/-- Witness for C8 at a concrete invocation. -/
theorem runInstall_force_merge_conflict_witness :
    runInstall
      { env := ⟨"/cwd", "/home/u", none⟩, tmpName := "/tmp/agent-skill-w8",
        cloneOk := true, stat := fun _ => none, frontmatter := .undefined,
        pathExistsO := fun _ => false, promptO := fun _ _ => .skip }
      { skillPath := some "./skill", force := true, merge := true }
      = (.error .forceMergeConflict, []) :=
  runInstall_force_merge_conflict _ _ "./skill" rfl rfl rfl

/-- C1 (code bug, evaluated at the failing input): a run whose source is
repository-like (`"o/r"`) and whose `git clone` fails creates the
temporary clone directory but never removes it — the trace holds the
`mkdtemp` event and no cleanup event, because the cleanup closure is
built only on successful resolution while the `try`/`finally` of
`runInstall` starts after `resolveSkillSource` has returned.  The same
trace shape shows the clone was attempted, so the run was repository-like. -/
theorem runInstall_clone_failure_leaves_tmpdir :
    runInstall
      { env := ⟨"/cwd", "/home/u", none⟩, tmpName := "/tmp/agent-skill-c1",
        cloneOk := false, stat := fun _ => none, frontmatter := .undefined,
        pathExistsO := fun _ => false, promptO := fun _ _ => .skip }
      { skillPath := some "o/r" }
      = (.error .gitClone,
         [.mkdtempE "/tmp/agent-skill-c1",
          .cloneE "https://github.com/o/r.git" none "/tmp/agent-skill-c1"])
  ∧ Ev.mkdtempE "/tmp/agent-skill-c1" ∈
      (runInstall
        { env := ⟨"/cwd", "/home/u", none⟩, tmpName := "/tmp/agent-skill-c1",
          cloneOk := false, stat := fun _ => none, frontmatter := .undefined,
          pathExistsO := fun _ => false, promptO := fun _ _ => .skip }
        { skillPath := some "o/r" }).2
  ∧ ∀ d, Ev.cleanupRmE d ∉
      (runInstall
        { env := ⟨"/cwd", "/home/u", none⟩, tmpName := "/tmp/agent-skill-c1",
          cloneOk := false, stat := fun _ => none, frontmatter := .undefined,
          pathExistsO := fun _ => false, promptO := fun _ _ => .skip }
        { skillPath := some "o/r" }).2 := by
  refine ⟨by rfl, by decide, fun d => ?_⟩
  intro hmem
  have h : runInstall
      { env := ⟨"/cwd", "/home/u", none⟩, tmpName := "/tmp/agent-skill-c1",
        cloneOk := false, stat := fun _ => none, frontmatter := .undefined,
        pathExistsO := fun _ => false, promptO := fun _ _ => .skip }
      { skillPath := some "o/r" }
      = (.error .gitClone,
         [.mkdtempE "/tmp/agent-skill-c1",
          .cloneE "https://github.com/o/r.git" none "/tmp/agent-skill-c1"]) := by
    rfl
  rw [h] at hmem
  simp at hmem

/-- C10: an input that starts with `http://` or `https://` but is not a
parseable URL is repo-like, yet yields no repo spec; with such an input
(and no pre-existing path of that literal name) the run performs no
`path.resolve`, no temporary directory and no clone: it stats the raw
string once and fails with the path-not-found resolution error naming
the raw string. -/
theorem runInstall_unparseable_url_stats_raw_path (w : World) (o : Opts) (s : String)
    (h0 : o.skillPath = some s)
    (h1 : jsStartsWith s "http://" = true ∨ jsStartsWith s "https://" = true)
    (h2 : parseURL s = none)
    (h3 : (o.force && o.merge) = false)
    (h4 : w.stat s = none) :
    isRepoLike s = true ∧ parseRepoSpec s = none ∧
      runInstall w o = (.error (.pathNotFound s), [.statE s]) := by
  have hs : ¬s = "" := by
    rintro rfl
    rcases h1 with h | h <;> simp [jsStartsWith, startsWithL] at h
  have hrepo : isRepoLike s = true := by
    unfold isRepoLike
    rcases h1 with h | h <;> simp [hs, h]
  have hparse : parseRepoSpec s = none := by
    unfold parseRepoSpec
    rcases h1 with h | h <;> simp [hs, h, h2]
  refine ⟨hrepo, hparse, ?_⟩
  unfold runInstall
  rw [h0]
  simp only [h3, Bool.false_eq_true, if_false, hrepo, if_true]
  unfold resolveSkillSource
  rw [hparse, h4]

/-- Witness for C10 at the concrete input `"http://"`. -/
theorem runInstall_unparseable_url_stats_raw_path_witness :
    isRepoLike "http://" = true ∧ parseRepoSpec "http://" = none ∧
      runInstall
        { env := ⟨"/cwd", "/home/u", none⟩, tmpName := "/tmp/agent-skill-w10",
          cloneOk := true, stat := fun _ => none, frontmatter := .undefined,
          pathExistsO := fun _ => false, promptO := fun _ _ => .skip }
        { skillPath := some "http://" }
      = (.error (.pathNotFound "http://"), [.statE "http://"]) :=
  runInstall_unparseable_url_stats_raw_path _ _ "http://" rfl (Or.inl (by decide))
    (by decide) rfl rfl

/-- Reduction of `validateFrontmatter` on a frontmatter object with the
three fields the code reads, with arbitrary field values. -/
theorem validateFrontmatter_obj3 (n d v : JSValue) :
    validateFrontmatter (.obj [("name", n), ("description", d),
        ("metadata", .obj [("version", v)])])
      = (if jsTrim (jsToString (jsOr n (.str ""))) = "" then .error .missingName
         else if jsTrim (jsToString (jsOr d (.str ""))) = "" then .error .missingDescription
         else if jsTrim (jsToString (jsOr v (.str ""))) = "" then .error .missingVersion
         else if !semverValid (jsTrim (jsToString (jsOr v (.str "")))) then
           .error .invalidSemver
         else .ok ()) := rfl

/-- C2: with any non-blank (after trimming) name and description, the
validator rejects the versions `"1.0"` and `"v1.0.0"` as invalid semver
and accepts `"1.0.0"` and `"1.0.0-beta.1"`. -/
theorem validateFrontmatter_semver_examples (n d : String)
    (hn : jsTrim n ≠ "") (hd : jsTrim d ≠ "") :
    validateFrontmatter (.obj [("name", .str n), ("description", .str d),
        ("metadata", .obj [("version", .str "1.0")])]) = .error .invalidSemver
  ∧ validateFrontmatter (.obj [("name", .str n), ("description", .str d),
        ("metadata", .obj [("version", .str "v1.0.0")])]) = .error .invalidSemver
  ∧ validateFrontmatter (.obj [("name", .str n), ("description", .str d),
        ("metadata", .obj [("version", .str "1.0.0")])]) = .ok ()
  ∧ validateFrontmatter (.obj [("name", .str n), ("description", .str d),
        ("metadata", .obj [("version", .str "1.0.0-beta.1")])]) = .ok () := by
  have hn' : n ≠ "" := by rintro rfl; exact hn rfl
  have hd' : d ≠ "" := by rintro rfl; exact hd rfl
  have ht1 : jsTruthy (JSValue.str n) = true := by
    simp only [jsTruthy, bne_iff_ne, ne_eq]; exact hn'
  have ht2 : jsTruthy (JSValue.str d) = true := by
    simp only [jsTruthy, bne_iff_ne, ne_eq]; exact hd'
  refine ⟨?_, ?_, ?_, ?_⟩ <;>
  · rw [validateFrontmatter_obj3]
    simp only [jsOr, ht1, ht2, if_true, jsToString]
    rw [if_neg hn, if_neg hd]
    rfl

/-- Witness for C2 at concrete non-blank name and description. -/
theorem validateFrontmatter_semver_examples_witness :
    validateFrontmatter (.obj [("name", .str "x"), ("description", .str "y"),
        ("metadata", .obj [("version", .str "1.0")])]) = .error .invalidSemver
  ∧ validateFrontmatter (.obj [("name", .str "x"), ("description", .str "y"),
        ("metadata", .obj [("version", .str "v1.0.0")])]) = .error .invalidSemver
  ∧ validateFrontmatter (.obj [("name", .str "x"), ("description", .str "y"),
        ("metadata", .obj [("version", .str "1.0.0")])]) = .ok ()
  ∧ validateFrontmatter (.obj [("name", .str "x"), ("description", .str "y"),
        ("metadata", .obj [("version", .str "1.0.0-beta.1")])]) = .ok () :=
  validateFrontmatter_semver_examples "x" "y" (by decide) (by decide)

/-- C3: `validateFrontmatter` fails on exactly the first violation in the
fixed order — (1) frontmatter falsy or not of object type, (2) trimmed
name blank, (3) trimmed description blank, (4) trimmed version blank
(with an absent `metadata` the version is blank, last conjunct), (5)
version not valid semver — and a frontmatter passing all five checks
raises no error. -/
theorem validateFrontmatter_first_violation (fm : JSValue) :
    ((jsTruthy fm = false ∨ typeofIsObject fm = false) →
      validateFrontmatter fm = .error .missingFrontmatter)
  ∧ (jsTruthy fm = true → typeofIsObject fm = true → fmName fm = "" →
      validateFrontmatter fm = .error .missingName)
  ∧ (jsTruthy fm = true → typeofIsObject fm = true → fmName fm ≠ "" →
      fmDescription fm = "" → validateFrontmatter fm = .error .missingDescription)
  ∧ (jsTruthy fm = true → typeofIsObject fm = true → fmName fm ≠ "" →
      fmDescription fm ≠ "" → fmVersion fm = "" →
      validateFrontmatter fm = .error .missingVersion)
  ∧ (jsTruthy fm = true → typeofIsObject fm = true → fmName fm ≠ "" →
      fmDescription fm ≠ "" → fmVersion fm ≠ "" →
      semverValid (fmVersion fm) = false →
      validateFrontmatter fm = .error .invalidSemver)
  ∧ (jsTruthy fm = true → typeofIsObject fm = true → fmName fm ≠ "" →
      fmDescription fm ≠ "" → fmVersion fm ≠ "" →
      semverValid (fmVersion fm) = true → validateFrontmatter fm = .ok ())
  ∧ (getField fm "metadata" = .undefined → fmVersion fm = "") := by
  refine ⟨?_, ?_, ?_, ?_, ?_, ?_, ?_⟩
  · intro h; unfold validateFrontmatter; rcases h with h | h <;> simp [h]
  · intro h1 h2 h3; unfold validateFrontmatter; simp [h1, h2, h3]
  · intro h1 h2 h3 h4; unfold validateFrontmatter; simp [h1, h2, h3, h4]
  · intro h1 h2 h3 h4 h5; unfold validateFrontmatter; simp [h1, h2, h3, h4, h5]
  · intro h1 h2 h3 h4 h5 h6; unfold validateFrontmatter; simp [h1, h2, h3, h4, h5, h6]
  · intro h1 h2 h3 h4 h5 h6; unfold validateFrontmatter; simp [h1, h2, h3, h4, h5, h6]
  · intro h
    simp only [fmVersion, fmMetadata, h, jsTruthy, typeofIsObject, Bool.false_and,
      if_false, jsOr, jsToString]
    rfl

/-- Witness for C3: a frontmatter passing all five checks validates. -/
theorem validateFrontmatter_first_violation_witness :
    validateFrontmatter (.obj [("name", .str "skill"), ("description", .str "desc"),
      ("metadata", .obj [("version", .str "2.1.0")])]) = .ok () :=
  (validateFrontmatter_first_violation _).2.2.2.2.2.1 rfl rfl (by decide) (by decide)
    (by decide) (by decide)

/-- C9: the validator never requires `name`, `description` or
`metadata.version` to be strings — each value is `String()`-coerced and
trimmed, so arbitrary values are accepted whenever the coerced name and
description are non-blank and the coerced version is valid semver. -/
theorem validateFrontmatter_coerces_nonstring_fields (v w u : JSValue)
    (hn : jsTrim (jsToString (jsOr v (.str ""))) ≠ "")
    (hd : jsTrim (jsToString (jsOr w (.str ""))) ≠ "")
    (hv : semverValid (jsTrim (jsToString (jsOr u (.str "")))) = true) :
    validateFrontmatter (.obj [("name", v), ("description", w),
      ("metadata", .obj [("version", u)])]) = .ok () := by
  have hvne : jsTrim (jsToString (jsOr u (.str ""))) ≠ "" := by
    intro h; rw [h] at hv; exact absurd hv (by decide)
  rw [validateFrontmatter_obj3, if_neg hn, if_neg hd, if_neg hvne, hv]
  rfl

/-- Witness for C9: the non-string values `name: 123` (a YAML number) and
`description: true` (a YAML boolean) are accepted. -/
theorem validateFrontmatter_coerces_nonstring_fields_witness :
    validateFrontmatter (.obj [("name", .num 123), ("description", .bool true),
      ("metadata", .obj [("version", .str "1.0.0")])]) = .ok () :=
  validateFrontmatter_coerces_nonstring_fields (.num 123) (.bool true) (.str "1.0.0")
    (by decide) (by decide) (by decide)

/-! ## String lemmas for the target-resolver theorem -/

theorem str_append_ne_empty_right (a b : String) (hb : b ≠ "") : a ++ b ≠ "" := by
  intro h
  apply hb
  have h2 := congrArg String.data h
  rw [String.data_append] at h2
  have h3 : b.data = [] := (List.append_eq_nil.mp h2).2
  cases b
  simp_all

theorem pathJoin_eq (a b : String) (ha : a ≠ "") (hb : b ≠ "") :
    pathJoin a b = a ++ "/" ++ b := by
  unfold pathJoin
  rw [if_neg ha, if_neg hb]

theorem pathJoin_ne_empty_right (a b : String) (hb : b ≠ "") : pathJoin a b ≠ "" := by
  unfold pathJoin
  by_cases ha : a = ""
  · rw [if_pos ha]; exact hb
  · rw [if_neg ha, if_neg hb]
    exact str_append_ne_empty_right _ _ hb

theorem pathResolve_ne_empty (cwd p : String) (hp : p ≠ "") :
    pathResolve cwd p ≠ "" := by
  unfold pathResolve
  split
  · exact hp
  · exact pathJoin_ne_empty_right _ _ hp

theorem pathJoin_two (P a b : String) (hP : P ≠ "") (ha : a ≠ "") (hb : b ≠ "") :
    pathJoin (pathJoin P a) b = P ++ ("/" ++ (a ++ ("/" ++ b))) := by
  rw [pathJoin_eq P a hP ha, pathJoin_eq _ b (str_append_ne_empty_right _ _ ha) hb]
  simp [String.append_assoc]

theorem pathJoin_skills (x : String) (hx : x ≠ "") :
    pathJoin x "skills" = x ++ "/skills" := by
  rw [pathJoin_eq x "skills" hx (by decide), String.append_assoc]
  rfl

/-- C5: the target resolver is total and returns exactly three targets in
the fixed order codex, claude, gemini.  With a (truthy) project path each
base is a `…/skills` directory under the resolved absolute project path;
without one the three global targets use `CODEX_HOME` (resolved) for the
codex base when that variable is set and non-empty, `~/.codex` otherwise,
and the fixed `~/.claude/skills` and `~/.gemini/skills` bases. -/
theorem getInstallTargets_fixed_targets (env : Env) (dp : Option String) :
    (∀ p, dp = some p → p ≠ "" →
      getInstallTargets env dp =
        [⟨"codex-project", pathResolve env.cwd p ++ "/.codex/skills"⟩,
         ⟨"claude-project", pathResolve env.cwd p ++ "/.claude/skills"⟩,
         ⟨"gemini-project", pathResolve env.cwd p ++ "/.gemini/skills"⟩])
  ∧ ((dp = none ∨ dp = some "") → (env.codexHome = none ∨ env.codexHome = some "") →
      getInstallTargets env dp =
        [⟨"codex-user", pathJoin env.homeDir ".codex" ++ "/skills"⟩,
         ⟨"claude-user", pathJoin env.homeDir ".claude" ++ "/skills"⟩,
         ⟨"gemini-user", pathJoin env.homeDir ".gemini" ++ "/skills"⟩])
  ∧ (∀ s, (dp = none ∨ dp = some "") → env.codexHome = some s → s ≠ "" →
      getInstallTargets env dp =
        [⟨"codex-user", pathResolve env.cwd s ++ "/skills"⟩,
         ⟨"claude-user", pathJoin env.homeDir ".claude" ++ "/skills"⟩,
         ⟨"gemini-user", pathJoin env.homeDir ".gemini" ++ "/skills"⟩]) := by
  have hju : ∀ a : String, pathJoin env.homeDir a ≠ "" → pathJoin (pathJoin env.homeDir a) "skills" = pathJoin env.homeDir a ++ "/skills" :=
    fun a ha => pathJoin_skills _ ha
  refine ⟨?_, ?_, ?_⟩
  · intro p hdp hp
    subst hdp
    have hP : pathResolve env.cwd p ≠ "" := pathResolve_ne_empty _ _ hp
    have hcond : optTruthy (some p) = true := by
      simp only [optTruthy, bne_iff_ne, ne_eq]; exact hp
    unfold getInstallTargets
    rw [hcond]
    simp only [if_true, Option.getD_some]
    rw [pathJoin_two _ ".codex" "skills" hP (by decide) (by decide),
        pathJoin_two _ ".claude" "skills" hP (by decide) (by decide),
        pathJoin_two _ ".gemini" "skills" hP (by decide) (by decide)]
    rfl
  · intro hdp hch
    have hcond : optTruthy dp = false := by
      rcases hdp with h | h <;> subst h <;> rfl
    unfold getInstallTargets
    rw [hcond]
    simp only [Bool.false_eq_true, if_false]
    have hcodex : (match env.codexHome with
        | some s => if s != "" then pathResolve env.cwd s else pathJoin env.homeDir ".codex"
        | none => pathJoin env.homeDir ".codex") = pathJoin env.homeDir ".codex" := by
      rcases hch with h | h
      · rw [h]
      · rw [h]; rfl
    rw [hcodex,
        pathJoin_skills _ (pathJoin_ne_empty_right env.homeDir ".codex" (by decide)),
        pathJoin_skills _ (pathJoin_ne_empty_right env.homeDir ".claude" (by decide)),
        pathJoin_skills _ (pathJoin_ne_empty_right env.homeDir ".gemini" (by decide))]
  · intro s hdp hch hs
    have hcond : optTruthy dp = false := by
      rcases hdp with h | h <;> subst h <;> rfl
    unfold getInstallTargets
    rw [hcond]
    simp only [Bool.false_eq_true, if_false]
    have hcodex : (match env.codexHome with
        | some s => if s != "" then pathResolve env.cwd s else pathJoin env.homeDir ".codex"
        | none => pathJoin env.homeDir ".codex") = pathResolve env.cwd s := by
      rw [hch]
      have hbne : (s != "") = true := by simp only [bne_iff_ne, ne_eq]; exact hs
      show (if (s != "") = true then pathResolve env.cwd s
            else pathJoin env.homeDir ".codex") = pathResolve env.cwd s
      rw [if_pos hbne]
    rw [hcodex,
        pathJoin_skills _ (pathResolve_ne_empty _ _ hs),
        pathJoin_skills _ (pathJoin_ne_empty_right env.homeDir ".claude" (by decide)),
        pathJoin_skills _ (pathJoin_ne_empty_right env.homeDir ".gemini" (by decide))]

/-- Witness for C5 at a concrete environment and project path. -/
theorem getInstallTargets_fixed_targets_witness :
    getInstallTargets ⟨"/cwd", "/home/u", some "/ch"⟩ (some "/proj") =
      [⟨"codex-project", pathResolve "/cwd" "/proj" ++ "/.codex/skills"⟩,
       ⟨"claude-project", pathResolve "/cwd" "/proj" ++ "/.claude/skills"⟩,
       ⟨"gemini-project", pathResolve "/cwd" "/proj" ++ "/.gemini/skills"⟩] :=
  (getInstallTargets_fixed_targets ⟨"/cwd", "/home/u", some "/ch"⟩ (some "/proj")).1
    "/proj" rfl (by decide)

/-! ## Lemmas about the `copyDir` semantics -/

theorem lookupA_assocSet_self (n : String) (v : FTree) (ds : List (String × FTree)) :
    lookupA n (assocSet n v ds) = some v := by
  induction ds with
  | nil => simp [assocSet, lookupA]
  | cons hd rest ih =>
    obtain ⟨m, t⟩ := hd
    by_cases h : m = n
    · subst h; simp [assocSet, lookupA]
    · simp [assocSet, lookupA, h, ih]

theorem lookupA_assocSet_ne (m n : String) (v : FTree) (ds : List (String × FTree))
    (h : m ≠ n) : lookupA n (assocSet m v ds) = lookupA n ds := by
  induction ds with
  | nil => simp [assocSet, lookupA, h]
  | cons hd rest ih =>
    obtain ⟨k, t⟩ := hd
    by_cases hk : k = m
    · subst hk; simp [assocSet, lookupA, h]
    · simp [assocSet, lookupA, hk, ih]

theorem lookupA_eq_none_of_noKey (n : String) (l : List (String × FTree))
    (h : noKey n l = true) : lookupA n l = none := by
  induction l with
  | nil => rfl
  | cons hd rest ih =>
    obtain ⟨m, t⟩ := hd
    simp only [noKey, List.any_cons, Bool.not_or, Bool.and_eq_true,
      Bool.not_eq_true', beq_eq_false_iff_ne, ne_eq] at h
    obtain ⟨hmn, hrest⟩ := h
    rw [lookupA, if_neg hmn]
    apply ih
    simp only [noKey, hrest, Bool.not_false]

theorem wfEntries_lookup (es : List (String × FTree)) (n : String) (t : FTree)
    (hwf : wfEntries es = true) (h : lookupA n es = some t) : wfT t = true := by
  induction es with
  | nil => simp [lookupA] at h
  | cons hd rest ih =>
    obtain ⟨m, u⟩ := hd
    simp only [wfEntries, Bool.and_eq_true] at hwf
    obtain ⟨⟨hnk, hwu⟩, hwrest⟩ := hwf
    by_cases hmn : m = n
    · subst hmn
      rw [lookupA, if_pos rfl] at h
      obtain rfl := Option.some.inj h
      exact hwu
    · rw [lookupA, if_neg hmn] at h
      exact ih hwrest h

/-- The entry a merged listing holds at each name: a name absent from the
source keeps the destination's entry; a name present in the source holds
the result of copying the source's entry onto the destination's. -/
theorem cpEntries_lookup (es : List (String × FTree)) :
    ∀ ds r, wfEntries es = true → cpEntries es ds = .ok r →
    ∀ n, (lookupA n es = none → lookupA n r = lookupA n ds) ∧
         (∀ t, lookupA n es = some t →
            ∃ t', cpTree t (lookupA n ds) = .ok t' ∧ lookupA n r = some t') := by
  induction es with
  | nil =>
    intro ds r _ h n
    simp only [cpEntries, Except.ok.injEq] at h
    subst h
    exact ⟨fun _ => rfl, fun t ht => by simp [lookupA] at ht⟩
  | cons hd rest ih =>
    obtain ⟨m, t⟩ := hd
    intro ds r hwf h n
    simp only [wfEntries, Bool.and_eq_true] at hwf
    obtain ⟨⟨hnk, hwt⟩, hwrest⟩ := hwf
    rw [cpEntries] at h
    cases hc : cpTree t (lookupA m ds) with
    | error e => rw [hc] at h; exact absurd h (by simp)
    | ok t' =>
      rw [hc] at h
      by_cases hmn : m = n
      · subst hmn
        constructor
        · intro hnone
          rw [lookupA, if_pos rfl] at hnone
          exact absurd hnone (by simp)
        · intro t0 ht0
          rw [lookupA, if_pos rfl] at ht0
          obtain rfl := Option.some.inj ht0
          have hnone : lookupA m rest = none := lookupA_eq_none_of_noKey _ _ hnk
          have hres := (ih (assocSet m t' ds) r hwrest h m).1 hnone
          rw [lookupA_assocSet_self] at hres
          exact ⟨t', hc, hres⟩
      · constructor
        · intro hnone
          rw [lookupA, if_neg hmn] at hnone
          have hres := (ih (assocSet m t' ds) r hwrest h n).1 hnone
          rw [lookupA_assocSet_ne _ _ _ _ hmn] at hres
          exact hres
        · intro t0 ht0
          rw [lookupA, if_neg hmn] at ht0
          obtain ⟨t2, hcp, hlk⟩ := (ih (assocSet m t' ds) r hwrest h n).2 t0 ht0
          rw [lookupA_assocSet_ne _ _ _ _ hmn] at hcp
          exact ⟨t2, hcp, hlk⟩

theorem fileAt_dir_cons (es : List (String × FTree)) (n : String) (p : List String) :
    fileAt (.dir es) (n :: p) =
      (match lookupA n es with
       | some t => fileAt t p
       | none => none) := by
  cases hlk : lookupA n es with
  | none => simp [fileAt, nodeAt, hlk]
  | some t => simp [fileAt, nodeAt, hlk]

/-- Every file of the source tree survives a successful copy with the
source's contents (so colliding paths end up with the source's contents). -/
theorem cpTree_source_files (p : List String) :
    ∀ (t : FTree) (odst : Option FTree) (t' : FTree) (c : String),
      wfT t = true → cpTree t odst = .ok t' → fileAt t p = some c →
      fileAt t' p = some c := by
  induction p with
  | nil =>
    intro t odst t' c _ hcp hf
    cases t with
    | file c0 =>
      simp only [fileAt, nodeAt] at hf
      obtain rfl := Option.some.inj hf
      cases odst with
      | none =>
        rw [cpTree] at hcp
        obtain rfl := (Except.ok.inj hcp)
        rfl
      | some d =>
        cases d with
        | file c1 =>
          rw [cpTree] at hcp
          obtain rfl := (Except.ok.inj hcp)
          rfl
        | dir ds => exact absurd hcp (by rw [cpTree]; simp)
    | dir es => simp [fileAt, nodeAt] at hf
  | cons n p' ih =>
    intro t odst t' c hwf hcp hf
    cases t with
    | file c0 => simp [fileAt, nodeAt] at hf
    | dir es =>
      rw [fileAt_dir_cons] at hf
      cases hlk : lookupA n es with
      | none => rw [hlk] at hf; exact absurd hf (by simp)
      | some t1 =>
        rw [hlk] at hf
        have hwf' : wfEntries es = true := by rw [wfT] at hwf; exact hwf
        have hwft1 : wfT t1 = true := wfEntries_lookup es n t1 hwf' hlk
        cases odst with
        | none =>
          rw [cpTree] at hcp
          cases hce : cpEntries es [] with
          | error e => rw [hce] at hcp; exact absurd hcp (by simp)
          | ok res =>
            rw [hce] at hcp
            obtain rfl := (Except.ok.inj hcp)
            obtain ⟨t2, hcp2, hlk2⟩ := (cpEntries_lookup es [] res hwf' hce n).2 t1 hlk
            rw [fileAt_dir_cons, hlk2]
            exact ih t1 (lookupA n ([] : List (String × FTree))) t2 c hwft1 hcp2 hf
        | some d =>
          cases d with
          | file c1 => exact absurd hcp (by rw [cpTree]; simp)
          | dir ds =>
            rw [cpTree] at hcp
            cases hce : cpEntries es ds with
            | error e => rw [hce] at hcp; exact absurd hcp (by simp)
            | ok res =>
              rw [hce] at hcp
              obtain rfl := (Except.ok.inj hcp)
              obtain ⟨t2, hcp2, hlk2⟩ := (cpEntries_lookup es ds res hwf' hce n).2 t1 hlk
              rw [fileAt_dir_cons, hlk2]
              exact ih t1 (lookupA n ds) t2 c hwft1 hcp2 hf

/-- Every file present only in the destination survives a successful copy
unchanged. -/
theorem cpTree_dest_only_files (p : List String) :
    ∀ (s d t' : FTree) (c : String),
      wfT s = true → cpTree s (some d) = .ok t' →
      fileAt d p = some c → nodeAt s p = none → fileAt t' p = some c := by
  induction p with
  | nil =>
    intro s d t' c _ _ _ hn
    simp [nodeAt] at hn
  | cons n p' ih =>
    intro s d t' c hwf hcp hf hn
    cases d with
    | file c0 => simp [fileAt, nodeAt] at hf
    | dir ds =>
      rw [fileAt_dir_cons] at hf
      cases hlkd : lookupA n ds with
      | none => rw [hlkd] at hf; exact absurd hf (by simp)
      | some d1 =>
        rw [hlkd] at hf
        cases s with
        | file c1 => exact absurd hcp (by rw [cpTree]; simp)
        | dir es =>
          rw [cpTree] at hcp
          cases hce : cpEntries es ds with
          | error e => rw [hce] at hcp; exact absurd hcp (by simp)
          | ok res =>
            rw [hce] at hcp
            obtain rfl := (Except.ok.inj hcp)
            have hwf' : wfEntries es = true := by rw [wfT] at hwf; exact hwf
            cases hlks : lookupA n es with
            | none =>
              have h1 := (cpEntries_lookup es ds res hwf' hce n).1 hlks
              rw [fileAt_dir_cons, h1, hlkd]
              exact hf
            | some s1 =>
              have hns1 : nodeAt s1 p' = none := by
                rw [nodeAt, hlks] at hn
                exact hn
              obtain ⟨t2, hcp2, hlk2⟩ := (cpEntries_lookup es ds res hwf' hce n).2 s1 hlks
              rw [hlkd] at hcp2
              have hwfs1 : wfT s1 = true := wfEntries_lookup es n s1 hwf' hlks
              rw [fileAt_dir_cons, hlk2]
              exact ih s1 d1 t2 c hwfs1 hcp2 hf hns1

/-- C6: applying the merge action (`copyDir` onto an existing destination
directory) leaves every file that exists only in the destination
unchanged and gives every file path present in both trees the source's
contents, for all well-formed source trees and all destination trees on
which the copy completes. -/
theorem copyDir_merge_preserves_and_overwrites (src dst out : FTree)
    (hwf : wfT src = true)
    (h : copyDir src (some dst) = .ok out) :
    (∀ p c, fileAt dst p = some c → nodeAt src p = none → fileAt out p = some c)
  ∧ (∀ p c c', fileAt src p = some c → fileAt dst p = some c' →
      fileAt out p = some c) := by
  have h' : cpTree src (some dst) = .ok out := h
  exact ⟨fun p c hf hn => cpTree_dest_only_files p src dst out c hwf h' hf hn,
         fun p c c' hf _ => cpTree_source_files p src (some dst) out c hwf h' hf⟩

/-- Witness for C6: merging a skill source over an existing destination
keeps the destination-only `extra.txt` and replaces the colliding
`SKILL.md` with the source's contents. -/
theorem copyDir_merge_preserves_and_overwrites_witness :
    copyDir (.dir [("SKILL.md", .file "new")])
        (some (.dir [("SKILL.md", .file "old"), ("extra.txt", .file "keep")]))
      = .ok (.dir [("SKILL.md", .file "new"), ("extra.txt", .file "keep")])
  ∧ fileAt (.dir [("SKILL.md", .file "new"), ("extra.txt", .file "keep")])
      ["extra.txt"] = some "keep"
  ∧ fileAt (.dir [("SKILL.md", .file "new"), ("extra.txt", .file "keep")])
      ["SKILL.md"] = some "new" := by
  have hcp : copyDir (.dir [("SKILL.md", .file "new")])
      (some (.dir [("SKILL.md", .file "old"), ("extra.txt", .file "keep")]))
      = .ok (.dir [("SKILL.md", .file "new"), ("extra.txt", .file "keep")]) := rfl
  refine ⟨hcp, ?_, ?_⟩
  · exact (copyDir_merge_preserves_and_overwrites
      (.dir [("SKILL.md", .file "new")])
      (.dir [("SKILL.md", .file "old"), ("extra.txt", .file "keep")])
      (.dir [("SKILL.md", .file "new"), ("extra.txt", .file "keep")])
      rfl hcp).1 ["extra.txt"] "keep" rfl rfl
  · exact (copyDir_merge_preserves_and_overwrites
      (.dir [("SKILL.md", .file "new")])
      (.dir [("SKILL.md", .file "old"), ("extra.txt", .file "keep")])
      (.dir [("SKILL.md", .file "new"), ("extra.txt", .file "keep")])
      rfl hcp).2 ["SKILL.md"] "new" "old" rfl rfl

end AgentSkills
